import Mathlib

/-!
Verification of the `mba_classes` repository: a shallow embedding of the
course–recommendation API (`src/api/app.py`) and the embedding-ingestion
pipeline (`src/scripts/ingest_embeddings.py`), together with theorems
settling the specification claims about them.

Python strings are modelled as `List Char`; Python ints as `Int`; remote
calls (Supabase REST/RPC, the OpenAI completion and embedding endpoints)
are modelled as explicit oracle parameters; fallible operations return
`Except` or degrade exactly as the source code does.
-/

namespace MbaClasses

/-! ## Python string primitives -/

/-- Python strings, modelled character by character. -/
abbrev Str := List Char

/-- The default whitespace set of Python's `str.strip` / `str.split`. -/
def pySpace (c : Char) : Bool :=
  c = ' ' || c = '\t' || c = '\n' || c = '\r' || c = '\x0b' || c = '\x0c'

/-- Drop the trailing run of characters satisfying `p`. -/
def dropTrailing (p : Char → Bool) (s : Str) : Str :=
  (s.reverse.dropWhile p).reverse

/-- Python `str.strip()` (no argument): trim whitespace from both ends. -/
def pyStrip (s : Str) : Str :=
  dropTrailing pySpace (s.dropWhile pySpace)

/-- Python `str.strip(chars)`: trim any of the given characters from both ends. -/
def pyStripChars (chars : List Char) (s : Str) : Str :=
  dropTrailing (fun c => chars.contains c) (s.dropWhile (fun c => chars.contains c))

/-- Python `str.lower()` (ASCII case folding suffices for this repository). -/
def lowerStr (s : Str) : Str := s.map Char.toLower

/-- `s.replace("\n", " ")`. -/
def nlToSpace (s : Str) : Str := s.map (fun c => if c = '\n' then ' ' else c)

/-- Fuel-driven worker for Python `str.split()` (split on whitespace runs,
dropping empty fields). -/
def pyWordsAux : Nat → Str → List Str
  | 0, _ => []
  | fuel + 1, s =>
    let s1 := s.dropWhile pySpace
    match s1 with
    | [] => []
    | c :: rest =>
      let w := rest.takeWhile (fun d => !pySpace d)
      (c :: w) :: pyWordsAux fuel (rest.dropWhile (fun d => !pySpace d))

/-- Python `str.split()` with no separator argument. -/
def pyWords (s : Str) : List Str := pyWordsAux (s.length + 1) s

/-- `" ".join(words)`. -/
def joinWords : List Str → Str
  | [] => []
  | [w] => w
  | w :: ws => w ++ ' ' :: joinWords ws

/-- `" ".join(s.split())`: collapse whitespace runs to single spaces and
trim both ends. -/
def collapseWs (s : Str) : Str := joinWords (pyWords s)

/-- Fuel-driven worker splitting a list into consecutive slices of size `n`. -/
def batchAux (n : Nat) : Nat → List α → List (List α)
  | 0, _ => []
  | _, [] => []
  | fuel + 1, l => l.take n :: batchAux n fuel (l.drop n)

/-- The batching loop of `create_embeddings`
(`for i in range(0, len(texts), n): texts[i:i+n]`). -/
def pyBatches (n : Nat) (l : List α) : List (List α) := batchAux n l.length l

/-! ## `src/scripts/ingest_embeddings.py` -/

/-- `TEXT_MAX_CHARS` (module-level config). -/
def TEXT_MAX_CHARS : Nat := 500

/-- `VECTOR_DIM` / the local `EMBEDDING_DIM` of `create_embeddings`. -/
def VECTOR_DIM : Nat := 1536

/-- `BATCH_SIZE` (both the module constant and the local one in
`create_embeddings` are 50). -/
def BATCH_SIZE : Nat := 50

/-- A row of the `courses` table as consumed by the ingestion script:
the three selected fields, each defaulting to `""` when missing/None
(the code reads them via `row.get(...) or ""`). -/
structure Row where
  course_id : Str
  title : Str
  description : Str
deriving DecidableEq, Repr

/-- The per-row validation/normalization step inside `fetch_courses`:
strip the fields and drop the row unless `course_id` and `title` are
non-empty after stripping. -/
def cleanRow (r : Row) : Option Row :=
  let cid := pyStrip r.course_id
  let title := pyStrip r.title
  let description := pyStrip r.description
  if cid ≠ [] ∧ title ≠ [] then some ⟨cid, title, description⟩ else none

/-- `fetch_courses`: read rows, return `[]` when there are none, otherwise
validate and normalize each row, silently dropping malformed ones. -/
def fetchCourses (rows : List Row) : List Row :=
  if rows = [] then [] else rows.filterMap cleanRow

/-- The em-dash separator used by `build_embedding_text`. -/
def emdashSep : Str := " — ".toList

/-- The character set of `desc.strip(" -:;")`. -/
def sepChars : List Char := [' ', '-', ':', ';']

/-- `build_embedding_text` (the second, effective definition in the file):
title alone when the description is empty, otherwise newline replacement,
whitespace collapse, truncation to `TEXT_MAX_CHARS`, removal of a leading
case-insensitive repetition of the title, and the final
`f"{title} — {desc}".strip()`. -/
def buildEmbeddingText (row : Row) : Str :=
  let title := pyStrip row.title
  let desc := pyStrip row.description
  if desc = [] then title
  else
    let d1 := nlToSpace desc
    let d2 := collapseWs d1
    let d3 := d2.take TEXT_MAX_CHARS
    let d4 :=
      if lowerStr title <+: lowerStr d3 then pyStripChars sepChars (d3.drop title.length)
      else d3
    pyStrip (title ++ emdashSep ++ d4)

/-- The embeddings endpoint, as an oracle: one call per batch of input
texts, answering with a list of vectors. -/
abbrev EmbedApi := List Str → List (List ℚ)

/-- `create_embeddings`. The debug print `texts[0]` runs before the
`len(texts) == 0` guard, so an empty input raises `IndexError` (modelled
as `Except.error`); otherwise the texts are embedded in batches of
`BATCH_SIZE`, batch results are concatenated in order, and the two
postcondition checks (count and per-vector dimension) fail hard by
returning `[]`. -/
def createEmbeddings (api : EmbedApi) (texts : List Str) : Except String (List (List ℚ)) :=
  if texts = [] then .error "IndexError: list index out of range"
  else
    let embeddings := (pyBatches BATCH_SIZE texts).flatMap api
    if embeddings.length ≠ texts.length then .ok []
    else if embeddings.any (fun v => v.length ≠ VECTOR_DIM) then .ok []
    else .ok embeddings

/-- Outcome of one run of the ingestion script's `main`:
`noCourses` is the `sys.exit(1)` after an empty fetch, `embedMismatch`
the `sys.exit(1)` after a failed embedding count check, `crashed` an
unhandled exception, and `finished` records the final course count,
embedding-table count, number of rows embedded, exit code
(0 on success, 2 on reconciliation mismatch) and the reported
`courses - embeddings` difference. -/
inductive IngestOutcome where
  | noCourses
  | embedMismatch
  | crashed
  | finished (co ce embedded : Nat) (exitCode : Nat) (diff : Int)
deriving DecidableEq, Repr

/-- `main` of the ingestion script, over a source table `rows`, the
embedding oracle `api`, and the pre-existing key set of the
`course_embeddings` table (`init`). Upserting is keyed by `course_id`
(insert-or-replace), so the post-write embedding count is the size of
the union of the existing keys with the upserted ones. -/
def mainIngest (rows : List Row) (api : EmbedApi) (init : Finset Str) : IngestOutcome :=
  let cleaned := fetchCourses rows
  if cleaned = [] then .noCourses
  else
    let texts := cleaned.map buildEmbeddingText
    match createEmbeddings api texts with
    | .error _ => .crashed
    | .ok vectors =>
      if vectors = [] ∨ vectors.length ≠ texts.length then .embedMismatch
      else
        let ids := cleaned.map Row.course_id
        let ce := (init ∪ ids.toFinset).card
        let co := rows.length
        let embedded := cleaned.length
        if ce = co ∧ ce = embedded then .finished co ce embedded 0 0
        else .finished co ce embedded 2 ((co : Int) - (ce : Int))

/-! ## `src/api/app.py` -/

/-- The Supabase configuration read at module level (`SUPABASE_URL`,
`SUPABASE_KEY`); an empty string models a missing/empty variable. -/
structure Config where
  url : Str
  key : Str

/-- A request-scoped candidate course. -/
structure Candidate where
  course_id : Str
  title : Str
deriving DecidableEq, Repr

/-- The `ft_search` RPC, as an oracle: given the intent and the match
count it either raises (any transport/HTTP error) or answers with the
`course_id` field of each hit (`[]` for a missing/empty field). -/
abbrev FtsOracle := Str → Int → Except Unit (List Str)

/-- `retrieve_candidates_fts`: on missing configuration or any RPC
failure it returns `[]`; otherwise it keeps the non-empty hit ids, in
order and without deduplication, using each id as its own title. -/
def retrieveCandidatesFts (cfg : Config) (orc : FtsOracle) (intent : Str) (want : Int) :
    List Candidate :=
  if cfg.url = [] ∨ cfg.key = [] then []
  else
    let want1 := max (if want = 0 then 10 else want) 1
    match orc intent want1 with
    | .error _ => []
    | .ok hits =>
      let ids := hits.filter (fun h => h ≠ [])
      if ids = [] then []
      else ids.map (fun cid => ⟨cid, cid⟩)

/-- `normalize_profession_name`: map the stripped, lower-cased input onto
the canonical key of `PROFESSION_PROFILES` (which contains only
"product manager" with aliases "pm" and "product management"). -/
def normalizeProfessionName (raw : Str) : Option Str :=
  if raw = [] then none
  else
    let s := lowerStr (pyStrip raw)
    if s = "product manager".toList ∨ s = "pm".toList ∨ s = "product management".toList
    then some "product manager".toList
    else none

/-- `build_intent_from_profession`. -/
def buildIntentFromProfession (profession goal : Str) : Str :=
  match normalizeProfessionName profession with
  | none =>
    let base := pyStrip profession
    if goal ≠ [] then base ++ ' ' :: pyStrip goal else base
  | some _ =>
    let base := "product management".toList
    if goal ≠ [] then base ++ ' ' :: pyStrip goal else base

/-- Python `a or b` on two strings: the first one that is non-empty. -/
def firstTruthy (a b : Str) : Str := if a ≠ [] then a else b

/-- The `top_k` field of a `/recommend` body, after `int(...)` coercion:
absent (the default 5 is used), an integer, or a value whose coercion
raises (the `except` branch substitutes 5). -/
inductive TopKField where
  | absent
  | coerced (n : Int)
  | uncoercible
deriving DecidableEq, Repr

/-- `max(1, min(top_k, 25))`. -/
def clampTopK (n : Int) : Int := max 1 (min n 25)

/-- The effective `top_k` of a `/recommend` request: coercion failure and
absence both yield 5, then the clamp to [1, 25] is applied. -/
def effectiveTopK : TopKField → Int
  | .absent => clampTopK 5
  | .coerced n => clampTopK n
  | .uncoercible => clampTopK 5

/-- An entry of a request's `results` list: a non-dict (skipped) or a
dict whose string-valued `course_id`/`title` may be absent (read via
`item.get(...) or ""`). -/
inductive RItem where
  | notDict
  | dict (course_id : Option Str) (title : Option Str)
deriving DecidableEq, Repr

/-- An entry of a request's `courses` list: a string or anything else
(skipped by the `isinstance(cid, str)` check). -/
inductive CEntry where
  | nonString
  | str (s : Str)
deriving DecidableEq, Repr

/-- The candidate a `results` entry contributes before the `seen` check:
requires a dict with non-empty stripped `course_id` and `title`. -/
def resPair : RItem → Option (Str × Str)
  | .notDict => none
  | .dict c t =>
    let cid := pyStrip (c.getD [])
    let title := pyStrip (t.getD [])
    if cid ≠ [] ∧ title ≠ [] then some (cid, title) else none

/-- The candidate a `courses` entry contributes before the `seen` check:
requires a string with a non-empty stripped value; the placeholder title
is `f"{cid} (title unknown)"`. -/
def coursePair : CEntry → Option (Str × Str)
  | .nonString => none
  | .str s =>
    let cid := pyStrip s
    if cid ≠ [] then some (cid, cid ++ " (title unknown)".toList) else none

/-- Python `min(a, b)` on numbers (returns `a` on ties). -/
def pyMin (a b : ℚ) : ℚ := if a ≤ b then a else b

/-- Python `max(a, b)` on numbers (returns `a` on ties). -/
def pyMax (a b : ℚ) : ℚ := if b ≤ a then a else b

/-- The shared `seen`-set loop of the `/recommend` candidate
normalization: append each pair whose id has not been seen yet. -/
def addCandidates (seen : List Str) : List (Str × Str) → List Candidate
  | [] => []
  | (cid, t) :: rest =>
    if cid ∈ seen then addCandidates seen rest
    else ⟨cid, t⟩ :: addCandidates (cid :: seen) rest

/-- Candidate normalization from the request body: `results` entries
first, then `courses` entries, one shared `seen` set. A missing or
non-list field contributes nothing. -/
def normalizeCandidates (results : Option (List RItem)) (courses : Option (List CEntry)) :
    List Candidate :=
  let rp := (results.getD []).filterMap resPair
  let cp := (courses.getD []).filterMap coursePair
  addCandidates [] (rp ++ cp)

/-- JSON values, as produced by `json.loads`; numbers are kept exactly
as mantissa·10^exp. -/
inductive J where
  | null
  | bool (b : Bool)
  | num (mantissa : Int) (exp10 : Int)
  | str (s : Str)
  | arr (elems : List J)
  | obj (members : List (Str × J))

/-- JSON whitespace (the characters `json.loads` skips between tokens). -/
def jWs (c : Char) : Bool := c = ' ' || c = '\t' || c = '\n' || c = '\r'

/-- Skip JSON whitespace. -/
def jskip (s : Str) : Str := s.dropWhile jWs

/-- Value of a hexadecimal digit. -/
def hexVal (c : Char) : Option Nat :=
  if c.isDigit then some (c.toNat - 48)
  else if 'a' ≤ c ∧ c ≤ 'f' then some (c.toNat - 87)
  else if 'A' ≤ c ∧ c ≤ 'F' then some (c.toNat - 55)
  else none

/-- Parse the remainder of a JSON string (after the opening quote),
returning its decoded content and the input after the closing quote. -/
def parseJString : Nat → Str → Option (Str × Str)
  | 0, _ => none
  | fuel + 1, s =>
    match s with
    | [] => none
    | c :: rest =>
      if c = '"' then some ([], rest)
      else if c = '\\' then
        match rest with
        | [] => none
        | e :: rest2 =>
          let esc : Option (Char × Str) :=
            if e = '"' then some ('"', rest2)
            else if e = '\\' then some ('\\', rest2)
            else if e = '/' then some ('/', rest2)
            else if e = 'b' then some ('\x08', rest2)
            else if e = 'f' then some ('\x0c', rest2)
            else if e = 'n' then some ('\n', rest2)
            else if e = 'r' then some ('\r', rest2)
            else if e = 't' then some ('\t', rest2)
            else if e = 'u' then
              match rest2 with
              | a :: b :: c2 :: d :: rest3 =>
                match hexVal a, hexVal b, hexVal c2, hexVal d with
                | some x, some y, some z, some w =>
                  some (Char.ofNat (((x * 16 + y) * 16 + z) * 16 + w), rest3)
                | _, _, _, _ => none
              | _ => none
            else none
          match esc with
          | none => none
          | some (ch, r) => (parseJString fuel r).map (fun p => (ch :: p.1, p.2))
      else if c.toNat < 32 then none
      else (parseJString fuel rest).map (fun p => (c :: p.1, p.2))

/-- Decimal value of a digit run. -/
def digitsToNat (ds : Str) : Nat := ds.foldl (fun acc c => acc * 10 + (c.toNat - 48)) 0

/-- Parse a JSON number (sign, integer part with the leading-zero rule,
optional fraction, optional exponent). -/
def parseJNumber (s : Str) : Option (J × Str) :=
  let sign : Int := if s.headI = '-' then -1 else 1
  let s1 := if s.headI = '-' then s.tail else s
  let intDigits := s1.takeWhile Char.isDigit
  let r1 := s1.dropWhile Char.isDigit
  if intDigits = [] then none
  else if 1 < intDigits.length ∧ intDigits.headI = '0' then none
  else
    let hasDot : Bool := r1.headI = '.' ∧ r1 ≠ []
    let fracDigits := if hasDot then r1.tail.takeWhile Char.isDigit else []
    let r2 := if hasDot then r1.tail.dropWhile Char.isDigit else r1
    if hasDot ∧ fracDigits = [] then none
    else
      let hasExp : Bool := (r2.headI = 'e' ∨ r2.headI = 'E') ∧ r2 ≠ []
      let t := if hasExp then r2.tail else r2
      let esign : Int := if hasExp ∧ t.headI = '-' then -1 else 1
      let t2 := if hasExp ∧ (t.headI = '-' ∨ t.headI = '+') then t.tail else t
      let expDigits := if hasExp then t2.takeWhile Char.isDigit else []
      if hasExp ∧ expDigits = [] then none
      else
        let r3 := if hasExp then t2.dropWhile Char.isDigit else r2
        let mantissa := sign * (digitsToNat (intDigits ++ fracDigits) : Int)
        let expVal := esign * (digitsToNat expDigits : Int) - (fracDigits.length : Int)
        some (J.num mantissa expVal, r3)

/-- Parse the items of a non-empty JSON array, given a parser `pv` for a
single value; consumes through the closing bracket. -/
def arrItems (pv : Str → Option (J × Str)) : Nat → Str → Option (List J × Str)
  | 0, _ => none
  | fuel + 1, s =>
    match pv s with
    | none => none
    | some (v, r) =>
      match jskip r with
      | ',' :: r2 => (arrItems pv fuel r2).map (fun p => (v :: p.1, p.2))
      | ']' :: r2 => some ([v], r2)
      | _ => none

/-- Parse the members of a non-empty JSON object, given a parser `pv`
for a single value; consumes through the closing brace. -/
def objMembers (pv : Str → Option (J × Str)) : Nat → Str → Option (List (Str × J) × Str)
  | 0, _ => none
  | fuel + 1, s =>
    match jskip s with
    | '"' :: r =>
      match parseJString (r.length + 1) r with
      | none => none
      | some (key, r1) =>
        match jskip r1 with
        | ':' :: r3 =>
          match pv r3 with
          | none => none
          | some (v, r4) =>
            match jskip r4 with
            | ',' :: r6 => (objMembers pv fuel r6).map (fun p => ((key, v) :: p.1, p.2))
            | '\x7d' :: r6 => some ([(key, v)], r6)
            | _ => none
        | _ => none
    | _ => none

/-- Parse one JSON value, returning it and the unconsumed input. -/
def parseJVal : Nat → Str → Option (J × Str)
  | 0, _ => none
  | fuel + 1, s =>
    match jskip s with
    | [] => none
    | c :: rest =>
      if c = 'n' then
        if rest.take 3 = ['u', 'l', 'l'] then some (J.null, rest.drop 3) else none
      else if c = 't' then
        if rest.take 3 = ['r', 'u', 'e'] then some (J.bool true, rest.drop 3) else none
      else if c = 'f' then
        if rest.take 4 = ['a', 'l', 's', 'e'] then some (J.bool false, rest.drop 4) else none
      else if c = '"' then
        (parseJString (rest.length + 1) rest).map (fun p => (J.str p.1, p.2))
      else if c = '[' then
        match jskip rest with
        | ']' :: r2 => some (J.arr [], r2)
        | r1 => (arrItems (parseJVal fuel) (r1.length + 1) r1).map (fun p => (J.arr p.1, p.2))
      else if c = '\x7b' then
        match jskip rest with
        | '\x7d' :: r2 => some (J.obj [], r2)
        | r1 => (objMembers (parseJVal fuel) (r1.length + 1) r1).map (fun p => (J.obj p.1, p.2))
      else if c = '-' ∨ c.isDigit then parseJNumber (c :: rest)
      else none

/-- `json.loads`: parse one value and require only trailing whitespace
after it; `none` models a raised `JSONDecodeError`. -/
def jsonLoads (s : Str) : Option J :=
  match parseJVal (s.length + 1) s with
  | some (v, rest) => if jskip rest = [] then some v else none
  | none => none

/-- The backtick character. -/
def backtick : Char := '\x60'

/-- A code-fence delimiter (three backticks). -/
def fenceMarker : Str := [backtick, backtick, backtick]

/-- The effect of
`re.sub(r"^` ♦ `(?:json)?\s*|\s*` ♦ `$", "", t, flags=IGNORECASE|DOTALL)`
(♦ standing for the triple backtick) on a `t` known to start with a
fence: drop the leading fence with an optional case-insensitive `json`
tag and the following whitespace run, and, when the remainder ends with
a fence, drop that fence and the whitespace run before it. -/
def stripFence (t : Str) : Str :=
  let t1 := t.drop 3
  let t2 := if lowerStr (t1.take 4) = "json".toList then t1.drop 4 else t1
  let t3 := t2.dropWhile pySpace
  if fenceMarker <:+ t3 then dropTrailing pySpace (t3.take (t3.length - 3))
  else t3

/-- The effect of `re.search(r"\[[\s\S]*\]", t)`: the substring from the
first `[` through the last `]` after it, if both exist. -/
def extractBracket (t : Str) : Option Str :=
  let pre := t.takeWhile (fun c => c ≠ '[')
  match t.drop pre.length with
  | [] => none
  | _ :: rest =>
    let revAfter := rest.reverse.dropWhile (fun c => c ≠ ']')
    if revAfter = [] then none
    else some ('[' :: revAfter.reverse)

/-- `parse_json_safely`: strip, remove a leading code fence if present,
try a direct parse, fall back to the first bracketed substring, and
finally degrade to the empty list. -/
def parseJsonSafely (text : Str) : J :=
  let t0 := pyStrip text
  let t := if fenceMarker <+: t0 then pyStrip (stripFence t0) else t0
  match jsonLoads t with
  | some v => v
  | none =>
    match extractBracket t with
    | some sub =>
      match jsonLoads sub with
      | some v => v
      | none => J.arr []
    | none => J.arr []

/-- A `/recommend` request body. String fields default to `""` when
absent; `results`/`courses` are `none` when absent or not a list. -/
structure RecommendBody where
  q : Str := []
  query : Str := []
  profession : Str := []
  goal : Str := []
  top_k : TopKField := .absent
  results : Option (List RItem) := none
  courses : Option (List CEntry) := none

/-- The intent of a `/recommend` request: `q`/`query` stripped, falling
back to the profession-derived intent when empty. -/
def recommendIntent (body : RecommendBody) : Str :=
  let profession := pyStrip body.profession
  let goal := pyStrip body.goal
  let intent := pyStrip (firstTruthy body.q body.query)
  if intent = [] ∧ profession ≠ [] then buildIntentFromProfession profession goal
  else intent

/-- The effective candidate list of a `/recommend` request: caller
candidates when any normalize, otherwise the FTS fallback (whose
exceptions are caught and degrade to `[]`). -/
def recommendCandidates (cfg : Config) (orc : FtsOracle) (body : RecommendBody) :
    List Candidate :=
  let cands := normalizeCandidates body.results body.courses
  if cands = [] then
    retrieveCandidatesFts cfg orc (recommendIntent body) (effectiveTopK body.top_k)
  else cands

/-- The `confidence` field of a raw model item, after
`float(r.get("confidence", 0.6))`: absent (default 0.6), a number, or a
value whose coercion raises (the `except` substitutes 0.6). -/
inductive ConfVal where
  | absent
  | num (q : ℚ)
  | uncoercible
deriving DecidableEq, Repr

/-- A raw item of the model's `recommendations` array: a non-dict
(skipped) or a dict with optional string `course_id`/`rationale` and a
`confidence` field. -/
inductive RawRec where
  | notDict
  | item (course_id : Option Str) (rationale : Option Str) (confidence : ConfVal)
deriving DecidableEq, Repr

/-- A validated recommendation, as returned to the caller. -/
structure RecommendationItem where
  course_id : Str
  rationale : Str
  confidence : ℚ
deriving DecidableEq, Repr

/-- The whitelist-validation loop of `/recommend`: keep an item only if
its stripped `course_id` is in `allowed` and its stripped rationale is
non-empty; truncate the rationale to 400 characters and clamp the
coerced confidence to [0, 1]. -/
def validateRecs (allowed : List Str) : List RawRec → List RecommendationItem
  | [] => []
  | .notDict :: rest => validateRecs allowed rest
  | .item c r conf :: rest =>
    let cid := pyStrip (c.getD [])
    let rationale := pyStrip (r.getD [])
    if cid ∈ allowed ∧ rationale ≠ [] then
      let confv : ℚ := match conf with
        | .num q => q
        | _ => 3 / 5
      ⟨cid, rationale.take 400, pyMax 0 (pyMin 1 confv)⟩ :: validateRecs allowed rest
    else validateRecs allowed rest

/-- A `/recommend` response: an error status with message, or a 200 with
the recommendation list. -/
inductive RecResp where
  | error (status : Nat) (msg : Str)
  | ok (items : List RecommendationItem)
deriving DecidableEq, Repr

/-- The recommendation items carried by a response (none on an error). -/
def recItems : RecResp → List RecommendationItem
  | .ok l => l
  | .error _ _ => []

/-- The HTTP status of a `/recommend` response. -/
def recStatus : RecResp → Nat
  | .ok _ => 200
  | .error s _ => s

/-- The `/recommend` handler: intent validation (400), candidate
assembly, early 200-with-empty-list when no candidates exist, truncation
of the candidates to the first 10, the model call (its parsed
`recommendations` array is the oracle input `modelRecs`; every transport
or parse failure already degrades to `[]`), whitelist validation, and
the final `cleaned[:top_k]`. -/
def recommendHandler (cfg : Config) (orc : FtsOracle) (body : RecommendBody)
    (modelRecs : List RawRec) : RecResp :=
  let intent := recommendIntent body
  let top_k := effectiveTopK body.top_k
  if intent = [] then
    .error 400 "Missing intent: provide \x27q\x27/\x27query\x27 or \x27profession\x27".toList
  else
    let candidates := recommendCandidates cfg orc body
    if candidates = [] then .ok []
    else
      let c10 := candidates.take 10
      let allowed := c10.map Candidate.course_id
      .ok ((validateRecs allowed modelRecs).take top_k.toNat)

/-- The `k` field of a `/search` body after `int(...)` coercion: absent
(default 10), an integer, or a coercion failure (the `except` branch
forces `k = -1`, failing validation below). -/
inductive KField where
  | absent
  | coerced (n : Int)
  | uncoercible
deriving DecidableEq, Repr

/-- The value of `k` used by `/search` after coercion. -/
def searchK : KField → Int
  | .absent => 10
  | .coerced n => n
  | .uncoercible => -1

/-- A `/search` request body. -/
structure SearchBody where
  q : Str := []
  query : Str := []
  k : KField := .absent

/-- A row of the `courses` table as returned by the PostgREST filter
call of `/search`. -/
structure SearchRow where
  course_id : Str
  title : Str
  description : Str
deriving DecidableEq, Repr

/-- One entry of a `/search` response's `results` array. -/
structure SearchResult where
  course_id : Str
  title : Str
  score : ℚ
  reasons : List Str
  description : Str
deriving DecidableEq, Repr

/-- The PostgREST read of `/search`, as an oracle: given the query and
the `limit` parameter it either raises/returns an HTTP error or answers
with rows. -/
abbrev SearchStore := Str → Int → Except Str (List SearchRow)

/-- A `/search` response. -/
inductive SearchResp where
  | error (status : Nat) (msg : Str)
  | ok (results : List SearchResult)
deriving DecidableEq, Repr

/-- The results carried by a `/search` response (none on an error). -/
def searchResults : SearchResp → List SearchResult
  | .ok l => l
  | .error _ _ => []

/-- The `/search` handler: query validation (400), `k` validation (422),
the configuration check (500 with a distinct message), the store read
(failures map to 500), and the 1-to-1 mapping of rows onto results with
`score = 1.0`. -/
def searchHandler (cfg : Config) (store : SearchStore) (body : SearchBody) : SearchResp :=
  let q := pyStrip (firstTruthy body.q body.query)
  let k := searchK body.k
  if q = [] then
    .error 400 "Missing or invalid \x27query\x27 (use \x27q\x27 or \x27query\x27)".toList
  else if ¬ (1 ≤ k ∧ k ≤ 25) then
    .error 422 "Invalid \x27k\x27 value (must be 1–25)".toList
  else if cfg.url = [] ∨ cfg.key = [] then
    .error 500 "Missing SUPABASE_URL or API key".toList
  else
    match store q k with
    | .error e => .error 500 ("Search failed (REST): ".toList ++ e)
    | .ok rows => .ok (rows.map fun r => ⟨r.course_id, r.title, 1, [], r.description⟩)

/-! ## Spec-side definitions (the claims' wording, for comparison) -/

/-- Whether a source row is valid for ingestion: non-empty `course_id`
and `title` after stripping (the claim's "drops every source row whose
course_id or title is empty/missing"). -/
def validSourceRow (r : Row) : Prop :=
  pyStrip r.course_id ≠ [] ∧ pyStrip r.title ≠ []

instance (r : Row) : Decidable (validSourceRow r) := by
  unfold validSourceRow
  infer_instance

/-- Field normalization applied by `fetch_courses` to a kept row. -/
def stripRow (r : Row) : Row :=
  ⟨pyStrip r.course_id, pyStrip r.title, pyStrip r.description⟩

/-- Claim C9's "trimmed_description": collapse internal
whitespace/newlines, truncate to the configured maximum character count,
strip a leading case-insensitive repetition of the title (with its
trailing separator characters), trimmed. -/
def trimmedDescriptionSpec (title desc : Str) : Str :=
  let d1 := collapseWs (nlToSpace desc)
  let d2 := d1.take TEXT_MAX_CHARS
  let d3 :=
    if lowerStr title <+: lowerStr d2 then pyStripChars sepChars (d2.drop title.length)
    else d2
  pyStrip d3

/-- Claim C5's "first occurrence wins": keep each element's first
occurrence, dropping all later duplicates. -/
def dedupFirst {α : Type} [DecidableEq α] : List α → List α
  | [] => []
  | x :: xs => x :: dedupFirst (xs.filter (fun y => y ≠ x))
termination_by l => l.length
decreasing_by exact Nat.lt_succ_of_le (List.length_filter_le _ _)

/-- The ids contributed by a request's `results` field, before
deduplication. -/
def validResultIds (results : Option (List RItem)) : List Str :=
  ((results.getD []).filterMap resPair).map Prod.fst

/-- The ids contributed by a request's `courses` field, before
deduplication. -/
def validCourseIds (courses : Option (List CEntry)) : List Str :=
  ((courses.getD []).filterMap coursePair).map Prod.fst

/-- Wrap a payload in a fenced json code block:
`"` ♦ `json\n" + s + "\n` ♦ `"` with ♦ the triple backtick. -/
def fenceWrap (s : Str) : Str :=
  fenceMarker ++ "json\n".toList ++ s ++ '\n' :: fenceMarker

/-- The preprocessing of `parse_json_safely`: strip, then remove a
leading code fence when present and strip again. -/
def preprocessed (text : Str) : Str :=
  let t0 := pyStrip text
  if fenceMarker <+: t0 then pyStrip (stripFence t0) else t0

/-- Claim C8's "string containing no recoverable JSON": after
preprocessing, neither the direct parse nor the bracketed-substring
recovery yields a value. -/
def noRecoverableJson (text : Str) : Prop :=
  jsonLoads (preprocessed text) = none ∧
    ∀ sub, extractBracket (preprocessed text) = some sub → jsonLoads sub = none

/-! ## Helper lemmas -/

theorem effectiveTopK_pos (t : TopKField) : 0 < effectiveTopK t := by
  have h : ∀ n : Int, 0 < clampTopK n := fun n => lt_max_iff.mpr (Or.inl one_pos)
  cases t <;> exact h _

theorem recItems_length_le (cfg : Config) (orc : FtsOracle) (body : RecommendBody)
    (recs : List RawRec) :
    (recItems (recommendHandler cfg orc body recs)).length ≤ (effectiveTopK body.top_k).toNat := by
  unfold recommendHandler
  dsimp only
  split
  · simp [recItems]
  · split
    · simp [recItems]
    · simpa [recItems] using List.length_take_le _ _

theorem recommendHandler_topk_congr (cfg : Config) (orc : FtsOracle) (body : RecommendBody)
    (recs : List RawRec) (t₁ t₂ : TopKField) (h : effectiveTopK t₁ = effectiveTopK t₂) :
    recommendHandler cfg orc { body with top_k := t₁ } recs
      = recommendHandler cfg orc { body with top_k := t₂ } recs := by
  cases body
  unfold recommendHandler recommendCandidates recommendIntent
  dsimp only
  rw [h]

theorem validateRecs_nil (allowed : List Str) : validateRecs allowed [] = [] := rfl

theorem validateRecs_notDict (allowed : List Str) (tl : List RawRec) :
    validateRecs allowed (.notDict :: tl) = validateRecs allowed tl := rfl

theorem validateRecs_item (allowed : List Str) (c r : Option Str) (conf : ConfVal)
    (tl : List RawRec) :
    validateRecs allowed (.item c r conf :: tl) =
      if pyStrip (c.getD []) ∈ allowed ∧ pyStrip (r.getD []) ≠ [] then
        (⟨pyStrip (c.getD []), (pyStrip (r.getD [])).take 400,
          pyMax 0 (pyMin 1 (match conf with | .num q => q | _ => 3 / 5))⟩ : RecommendationItem)
          :: validateRecs allowed tl
      else validateRecs allowed tl := rfl

theorem validateRecs_mem_allowed (allowed : List Str) (recs : List RawRec) :
    ∀ r ∈ validateRecs allowed recs, r.course_id ∈ allowed := by
  induction recs with
  | nil => rw [validateRecs_nil]; intro r hr; cases hr
  | cons hd tl ih =>
    cases hd with
    | notDict => rw [validateRecs_notDict]; exact ih
    | item c r conf =>
      rw [validateRecs_item]
      split
      · next hcond =>
        intro x hx
        rcases List.mem_cons.mp hx with hx | hx
        · subst hx; exact hcond.1
        · exact ih x hx
      · exact ih

theorem batchAux_flatten (n : Nat) (hn : 0 < n) :
    ∀ (fuel : Nat) (l : List α), l.length ≤ fuel → (batchAux n fuel l).flatten = l := by
  intro fuel
  induction fuel with
  | zero =>
    intro l hl
    have : l = [] := List.eq_nil_of_length_eq_zero (Nat.le_zero.mp hl)
    simp [this, batchAux]
  | succ fuel ih =>
    intro l hl
    cases l with
    | nil => simp [batchAux]
    | cons x xs =>
      have hdrop : ((x :: xs).drop n).length ≤ fuel := by
        simp only [List.length_drop, List.length_cons] at hl ⊢
        omega
      simp only [batchAux, List.flatten_cons, ih _ hdrop, List.take_append_drop]

theorem pyBatches_flatten (n : Nat) (hn : 0 < n) (l : List α) :
    (pyBatches n l).flatten = l :=
  batchAux_flatten n hn l.length l le_rfl

theorem flatMap_length_of_preserving (api : EmbedApi) (bs : List (List Str))
    (h : ∀ b ∈ bs, (api b).length = b.length) :
    (bs.flatMap api).length = bs.flatten.length := by
  induction bs with
  | nil => simp
  | cons b bs ih =>
    simp only [List.flatMap_cons, List.flatten_cons, List.length_append]
    rw [h b (List.mem_cons_self _ _), ih (fun x hx => h x (List.mem_cons_of_mem _ hx))]

/-- Shared fact: on a non-empty input and a well-behaved embeddings
endpoint, `create_embeddings` succeeds with one vector per text. -/
theorem createEmbeddings_ok (api : EmbedApi) (texts : List Str) (hne : texts ≠ [])
    (hapi : ∀ b, (api b).length = b.length ∧ ∀ v ∈ api b, v.length = VECTOR_DIM) :
    createEmbeddings api texts = .ok ((pyBatches BATCH_SIZE texts).flatMap api) ∧
      ((pyBatches BATCH_SIZE texts).flatMap api).length = texts.length := by
  have hlen : ((pyBatches BATCH_SIZE texts).flatMap api).length = texts.length := by
    rw [flatMap_length_of_preserving api _ (fun b _ => (hapi b).1),
      pyBatches_flatten BATCH_SIZE (by norm_num [BATCH_SIZE]) texts]
  refine ⟨?_, hlen⟩
  unfold createEmbeddings
  rw [if_neg hne, if_neg (by simp [hlen])]
  rw [if_neg ?hdim]
  case hdim =>
    simp only [List.any_eq_true, ne_eq, decide_eq_true_eq, not_exists, not_and, not_not]
    intro v hv
    have : ∃ b ∈ pyBatches BATCH_SIZE texts, v ∈ api b := by
      simpa using List.mem_flatMap.mp hv
    rcases this with ⟨b, _, hvb⟩
    exact (hapi b).2 v hvb

theorem mem_of_mem_take_list {α : Type} {a : α} {n : Nat} {l : List α}
    (h : a ∈ l.take n) : a ∈ l :=
  List.take_subset n l h

theorem mem_of_mem_dedupFirst {α : Type} [DecidableEq α] {a : α} :
    ∀ l : List α, a ∈ dedupFirst l → a ∈ l := by
  intro l
  induction l using dedupFirst.induct with
  | case1 => simp [dedupFirst]
  | case2 x xs ih =>
    simp only [dedupFirst]
    intro h
    rcases List.mem_cons.mp h with h | h
    · exact h ▸ List.mem_cons_self _ _
    · exact List.mem_cons_of_mem _ (List.mem_of_mem_filter (ih h))

theorem dedupFirst_nodup {α : Type} [DecidableEq α] : ∀ l : List α, (dedupFirst l).Nodup := by
  intro l
  induction l using dedupFirst.induct with
  | case1 => simp [dedupFirst]
  | case2 x xs ih =>
    simp only [dedupFirst]
    refine List.nodup_cons.mpr ⟨fun hx => ?_, ih⟩
    have := mem_of_mem_dedupFirst _ hx
    have := List.of_mem_filter this
    simp at this

theorem addCandidates_map_fst (pairs : List (Str × Str)) :
    ∀ seen : List Str, (addCandidates seen pairs).map Candidate.course_id
      = dedupFirst ((pairs.map Prod.fst).filter (fun y => !seen.contains y)) := by
  induction pairs with
  | nil => intro seen; simp [addCandidates, dedupFirst]
  | cons p rest ih =>
    intro seen
    obtain ⟨cid, t⟩ := p
    by_cases hmem : cid ∈ seen
    · rw [addCandidates, if_pos hmem, ih seen]
      congr 1
      simp only [List.map_cons, List.filter_cons]
      rw [if_neg (by simp [hmem])]
    · rw [addCandidates, if_neg hmem]
      simp only [List.map_cons, ih (cid :: seen), List.filter_cons]
      rw [if_pos (by simp [hmem])]
      simp only [dedupFirst, List.map_cons, List.filter_filter]
      congr 1
      congr 1
      apply List.filter_congr
      intro a _
      simp only [List.contains_cons, Bool.not_or]
      cases h : seen.contains a <;> simp [decide_not, Bool.and_comm, Bool.beq_eq_decide_eq]

theorem filterMap_cleanRow (rows : List Row) :
    rows.filterMap cleanRow = (rows.filter (fun r => decide (validSourceRow r))).map stripRow := by
  induction rows with
  | nil => rfl
  | cons r rest ih =>
    simp only [List.filterMap_cons, List.filter_cons]
    by_cases hv : validSourceRow r
    · have hv' : pyStrip r.course_id ≠ [] ∧ pyStrip r.title ≠ [] := hv
      have hc : cleanRow r = some (stripRow r) := by
        unfold cleanRow stripRow
        dsimp only
        rw [if_pos hv']
      rw [hc, if_pos (by simpa using hv)]
      simp [ih]
    · have hv' : ¬ (pyStrip r.course_id ≠ [] ∧ pyStrip r.title ≠ []) := hv
      have hc : cleanRow r = none := by
        unfold cleanRow
        dsimp only
        rw [if_neg hv']
      rw [hc, if_neg (by simpa using hv)]
      exact ih

theorem fetchCourses_eq (rows : List Row) :
    fetchCourses rows = (rows.filter (fun r => decide (validSourceRow r))).map stripRow := by
  unfold fetchCourses
  split
  · next h => simp [h]
  · exact filterMap_cleanRow rows

/-! ## Claim theorems -/

/-- C1: for every `/recommend` request that reaches the validation stage
and every list of raw items the completion model may return (including
adversarial items with invented ids), every item of the response has a
`course_id` belonging to the effective candidate whitelist — the first
10 candidates derived from `results`, `courses`, or FTS retrieval — and
the response holds at most the clamped `top_k` items. -/
theorem recommend_whitelist_gate (cfg : Config) (orc : FtsOracle) (body : RecommendBody)
    (recs : List RawRec) :
    (∀ r ∈ recItems (recommendHandler cfg orc body recs),
      r.course_id ∈ ((recommendCandidates cfg orc body).take 10).map Candidate.course_id) ∧
    ((recItems (recommendHandler cfg orc body recs)).length : Int) ≤ effectiveTopK body.top_k := by
  constructor
  · intro r hr
    unfold recommendHandler at hr
    dsimp only at hr
    split at hr
    · cases hr
    · split at hr
      · cases hr
      · exact validateRecs_mem_allowed _ recs r (mem_of_mem_take_list hr)
  · have h := recItems_length_le cfg orc body recs
    have hpos := effectiveTopK_pos body.top_k
    have := Int.ofNat_le.mpr h
    rwa [Int.toNat_of_nonneg (le_of_lt hpos)] at this

/-- C1 witness: a request carrying the single candidate PM101 and an
adversarial model output claiming both PM101 and an invented id. -/
theorem recommend_whitelist_gate_witness :
    (⟨"PM101".toList, "ok".toList, pyMax 0 (pyMin 1 (3 / 5 : ℚ))⟩ : RecommendationItem).course_id
        ∈ ((recommendCandidates ⟨[], []⟩ (fun _ _ => .error ())
            { q := "pm".toList,
              results := some [.dict (some "PM101".toList) (some "T".toList)] }).take 10).map
            Candidate.course_id ∧
    ((recItems (recommendHandler ⟨[], []⟩ (fun _ _ => .error ())
        { q := "pm".toList,
          results := some [.dict (some "PM101".toList) (some "T".toList)] }
        [.item (some "PM101".toList) (some "ok".toList) .absent,
         .item (some "EVIL".toList) (some "x".toList) .absent])).length : Int)
      ≤ effectiveTopK
          ({ q := "pm".toList,
             results := some [.dict (some "PM101".toList) (some "T".toList)] } :
            RecommendBody).top_k :=
  ⟨(recommend_whitelist_gate ⟨[], []⟩ (fun _ _ => .error ())
      { q := "pm".toList,
        results := some [.dict (some "PM101".toList) (some "T".toList)] }
      [.item (some "PM101".toList) (some "ok".toList) .absent,
       .item (some "EVIL".toList) (some "x".toList) .absent]).1 _ (List.mem_singleton_self _),
   (recommend_whitelist_gate ⟨[], []⟩ (fun _ _ => .error ())
      { q := "pm".toList,
        results := some [.dict (some "PM101".toList) (some "T".toList)] }
      [.item (some "PM101".toList) (some "ok".toList) .absent,
       .item (some "EVIL".toList) (some "x".toList) .absent]).2⟩

/-- C2: for `/recommend`, a `top_k` that coerces to `n` is used as
`max(1, min(n, 25))`; requesting `top_k = 999` yields at most 25 items,
and `top_k = 0` makes the handler behave exactly as `top_k = 1`. -/
theorem recommend_top_k_clamped :
    (∀ n : Int, effectiveTopK (.coerced n) = max 1 (min n 25)) ∧
    (∀ (cfg : Config) (orc : FtsOracle) (body : RecommendBody) (recs : List RawRec),
      body.top_k = .coerced 999 →
      (recItems (recommendHandler cfg orc body recs)).length ≤ 25) ∧
    (∀ (cfg : Config) (orc : FtsOracle) (body : RecommendBody) (recs : List RawRec),
      recommendHandler cfg orc { body with top_k := .coerced 0 } recs
        = recommendHandler cfg orc { body with top_k := .coerced 1 } recs) := by
  refine ⟨fun n => rfl, ?_, ?_⟩
  · intro cfg orc body recs h
    have hle := recItems_length_le cfg orc body recs
    rw [h] at hle
    exact hle.trans (by decide)
  · intro cfg orc body recs
    exact recommendHandler_topk_congr cfg orc body recs _ _ (by decide)

/-- C2 witness: the clamp at 7, the 999-cap and the 0-equals-1 behavior
at a concrete request. -/
theorem recommend_top_k_clamped_witness :
    effectiveTopK (.coerced 7) = max 1 (min 7 25) ∧
    (recItems (recommendHandler ⟨[], []⟩ (fun _ _ => .error ())
        { q := "x".toList, top_k := .coerced 999 } [])).length ≤ 25 ∧
    recommendHandler ⟨[], []⟩ (fun _ _ => .error ())
        { q := "x".toList, top_k := .coerced 0 } []
      = recommendHandler ⟨[], []⟩ (fun _ _ => .error ())
        { q := "x".toList, top_k := .coerced 1 } [] :=
  ⟨recommend_top_k_clamped.1 7,
   recommend_top_k_clamped.2.1 ⟨[], []⟩ (fun _ _ => .error ())
     { q := "x".toList, top_k := .coerced 999 } [] rfl,
   recommend_top_k_clamped.2.2 ⟨[], []⟩ (fun _ _ => .error ()) { q := "x".toList } []⟩

/-- C10: a `/recommend` `top_k` that fails integer coercion is not
rejected: the default 5 is substituted (and then clamped) and the
handler behaves exactly as with `top_k = 5` — whereas `/search` answers
422 for a non-coercible `k`. -/
theorem recommend_top_k_uncoercible_defaults :
    effectiveTopK .uncoercible = 5 ∧
    (∀ (cfg : Config) (orc : FtsOracle) (body : RecommendBody) (recs : List RawRec),
      recommendHandler cfg orc { body with top_k := .uncoercible } recs
        = recommendHandler cfg orc { body with top_k := .coerced 5 } recs) ∧
    (∀ (cfg : Config) (store : SearchStore) (body : SearchBody), body.k = .uncoercible →
      pyStrip (firstTruthy body.q body.query) ≠ [] →
      searchHandler cfg store body
        = .error 422 "Invalid \x27k\x27 value (must be 1–25)".toList) := by
  refine ⟨by decide, ?_, ?_⟩
  · intro cfg orc body recs
    exact recommendHandler_topk_congr cfg orc body recs _ _ (by decide)
  · intro cfg store body hk hq
    unfold searchHandler
    dsimp only
    rw [if_neg hq, hk]
    rw [if_pos (by decide)]

/-- C10 witness: a non-coercible `top_k` at a concrete `/recommend`
request, against the 422 of `/search` at a non-coercible `k`. -/
theorem recommend_top_k_uncoercible_defaults_witness :
    effectiveTopK .uncoercible = 5 ∧
    recommendHandler ⟨[], []⟩ (fun _ _ => .error ())
        { q := "x".toList, top_k := .uncoercible } []
      = recommendHandler ⟨[], []⟩ (fun _ _ => .error ())
        { q := "x".toList, top_k := .coerced 5 } [] ∧
    searchHandler ⟨[], []⟩ (fun _ _ => .ok []) { q := "x".toList, k := .uncoercible }
      = .error 422 "Invalid \x27k\x27 value (must be 1–25)".toList :=
  ⟨recommend_top_k_uncoercible_defaults.1,
   recommend_top_k_uncoercible_defaults.2.1 ⟨[], []⟩ (fun _ _ => .error ())
     { q := "x".toList } [],
   recommend_top_k_uncoercible_defaults.2.2 ⟨[], []⟩ (fun _ _ => .ok [])
     { q := "x".toList, k := .uncoercible } rfl (by decide)⟩

/-- C3 (code bug at the empty input): `create_embeddings` raises
`IndexError` on an empty input — the debug print indexes `texts[0]`
before the `len(texts) == 0` guard, making that guard dead code —
instead of returning the empty vector list; on any non-empty input it
issues one call per batch of 50, concatenates the batch results in input
order, and returns `[]` on any postcondition violation, never
partially-valid data. -/
theorem create_embeddings_contract :
    createEmbeddings (fun b => b.map fun _ => List.replicate VECTOR_DIM (0 : ℚ)) []
        = .error "IndexError: list index out of range" ∧
    (∀ (api : EmbedApi) (texts : List Str) (vs : List (List ℚ)),
      createEmbeddings api texts = .ok vs →
      vs = [] ∨ (vs.length = texts.length ∧ ∀ v ∈ vs, v.length = VECTOR_DIM)) ∧
    (∀ (api : EmbedApi) (texts : List Str), texts ≠ [] →
      (∀ b, (api b).length = b.length ∧ ∀ v ∈ api b, v.length = VECTOR_DIM) →
      createEmbeddings api texts = .ok ((pyBatches BATCH_SIZE texts).flatMap api) ∧
      ((pyBatches BATCH_SIZE texts).flatMap api).length = texts.length) := by
  refine ⟨rfl, ?_, fun api texts hne hapi => createEmbeddings_ok api texts hne hapi⟩
  intro api texts vs h
  unfold createEmbeddings at h
  split at h
  · cases h
  · dsimp only at h
    split at h
    · cases h; exact Or.inl rfl
    · split at h
      · cases h; exact Or.inl rfl
      · next hdim =>
        cases h
        refine Or.inr ⟨by omega, ?_⟩
        intro v hv
        simp only [List.any_eq_true, ne_eq, decide_eq_true_eq, not_exists, not_and,
          not_not] at hdim
        exact hdim v hv

/-- C3 witness: a one-text input embedded by a well-behaved endpoint. -/
theorem create_embeddings_contract_witness :
    createEmbeddings (fun b => b.map fun _ => List.replicate VECTOR_DIM (0 : ℚ)) ["t".toList]
        = .ok ((pyBatches BATCH_SIZE ["t".toList]).flatMap
            (fun b => b.map fun _ => List.replicate VECTOR_DIM (0 : ℚ))) ∧
    ((pyBatches BATCH_SIZE ["t".toList]).flatMap
        (fun b => b.map fun _ => List.replicate VECTOR_DIM (0 : ℚ))).length
      = ["t".toList].length :=
  create_embeddings_contract.2.2 (fun b => b.map fun _ => List.replicate VECTOR_DIM (0 : ℚ))
    ["t".toList] (by simp)
    (fun b => ⟨by simp, by
      intro v hv
      rcases List.mem_map.mp hv with ⟨a, _, rfl⟩
      simp⟩)

/-- C4 counterexample: with `SUPABASE_URL` empty, `retrieve_candidates_fts`
silently returns `[]` (the oracle is never consulted) and the `/recommend`
request completes with HTTP 200 and an empty recommendation list rather
than failing with a configuration error. -/
theorem retrieval_missing_config_counterexample :
    retrieveCandidatesFts ⟨[], "key".toList⟩ (fun _ _ => .ok ["C1".toList]) "intent".toList 5
        = [] ∧
    recommendHandler ⟨[], "key".toList⟩ (fun _ _ => .ok ["C1".toList])
        { q := "intent".toList } [] = .ok [] ∧
    recStatus (recommendHandler ⟨[], "key".toList⟩ (fun _ _ => .ok ["C1".toList])
        { q := "intent".toList } []) = 200 :=
  ⟨rfl, rfl, rfl⟩

/-- C4 (amended): `/search` does fail fast with the distinct 500 message
"Missing SUPABASE_URL or API key" when the URL or key configuration is
empty, but the FTS retrieval used by `/recommend` instead silently
degrades to an empty candidate list (and the request to a 200 with an
empty recommendation list). -/
theorem config_error_handling_amended :
    (∀ (cfg : Config) (store : SearchStore) (body : SearchBody),
      (cfg.url = [] ∨ cfg.key = []) →
      pyStrip (firstTruthy body.q body.query) ≠ [] →
      1 ≤ searchK body.k → searchK body.k ≤ 25 →
      searchHandler cfg store body = .error 500 "Missing SUPABASE_URL or API key".toList) ∧
    (∀ (cfg : Config) (orc : FtsOracle) (intent : Str) (want : Int),
      (cfg.url = [] ∨ cfg.key = []) →
      retrieveCandidatesFts cfg orc intent want = []) := by
  constructor
  · intro cfg store body hcfg hq h1 h2
    unfold searchHandler
    dsimp only
    rw [if_neg hq, if_neg (not_not_intro ⟨h1, h2⟩), if_pos hcfg]
  · intro cfg orc intent want hcfg
    unfold retrieveCandidatesFts
    rw [if_pos hcfg]

/-- C4 witness: a concrete `/search` request against an empty URL, and a
concrete FTS invocation against an empty key. -/
theorem config_error_handling_amended_witness :
    searchHandler ⟨[], "key".toList⟩ (fun _ _ => .ok []) { q := "x".toList }
        = .error 500 "Missing SUPABASE_URL or API key".toList ∧
    retrieveCandidatesFts ⟨"url".toList, []⟩ (fun _ _ => .ok ["C1".toList]) "x".toList 3
        = [] :=
  ⟨config_error_handling_amended.1 ⟨[], "key".toList⟩ (fun _ _ => .ok []) { q := "x".toList }
     (Or.inl rfl) (by decide) (by decide) (by decide),
   config_error_handling_amended.2 ⟨"url".toList, []⟩ (fun _ _ => .ok ["C1".toList])
     "x".toList 3 (Or.inr rfl)⟩

/-- C7: for `/search` with a non-empty query, a `k` coercing into [1, 25]
yields at most `k` results, and a `k` outside [1, 25] or failing integer
coercion yields a 422 response. -/
theorem search_k_contract :
    (∀ (cfg : Config) (store : SearchStore) (body : SearchBody) (n : Int),
      body.k = .coerced n → 1 ≤ n →
      (∀ rows, store (pyStrip (firstTruthy body.q body.query)) n = .ok rows →
        (rows.length : Int) ≤ n) →
      ((searchResults (searchHandler cfg store body)).length : Int) ≤ n) ∧
    (∀ (cfg : Config) (store : SearchStore) (body : SearchBody),
      pyStrip (firstTruthy body.q body.query) ≠ [] →
      (body.k = .uncoercible ∨ ∃ n : Int, body.k = .coerced n ∧ (n < 1 ∨ 25 < n)) →
      searchHandler cfg store body
        = .error 422 "Invalid \x27k\x27 value (must be 1–25)".toList) := by
  constructor
  · intro cfg store body n hk h1 hstore
    unfold searchHandler
    dsimp only
    rw [hk]
    dsimp only [searchK]
    split
    · simp only [searchResults, List.length_nil, Nat.cast_zero]; omega
    · split
      · simp only [searchResults, List.length_nil, Nat.cast_zero]; omega
      · split
        · simp only [searchResults, List.length_nil, Nat.cast_zero]; omega
        · split
          · next heq => simp only [searchResults, List.length_nil, Nat.cast_zero]; omega
          · next rows heq =>
            simp only [searchResults, List.length_map]
            exact hstore rows heq
  · intro cfg store body hq hk
    unfold searchHandler
    dsimp only
    rw [if_neg hq]
    rcases hk with hk | ⟨n, hk, hn⟩ <;> rw [hk] <;> dsimp only [searchK]
    · rw [if_pos (by omega)]
    · rw [if_pos (by omega)]

/-- C7 witness: `k = 3` yields at most 3 results; `k = 0` yields a 422. -/
theorem search_k_contract_witness :
    ((searchResults (searchHandler ⟨"u".toList, "k".toList⟩ (fun _ _ => .ok [])
        { q := "x".toList, k := .coerced 3 })).length : Int) ≤ 3 ∧
    searchHandler ⟨"u".toList, "k".toList⟩ (fun _ _ => .ok [])
        { q := "x".toList, k := .coerced 0 }
      = .error 422 "Invalid \x27k\x27 value (must be 1–25)".toList :=
  ⟨search_k_contract.1 ⟨"u".toList, "k".toList⟩ (fun _ _ => .ok [])
     { q := "x".toList, k := .coerced 3 } 3 rfl (by decide)
     (by intro rows h; injection h with h; rw [← h]; decide),
   search_k_contract.2 ⟨"u".toList, "k".toList⟩ (fun _ _ => .ok [])
     { q := "x".toList, k := .coerced 0 } (by decide)
     (Or.inr ⟨0, rfl, Or.inl (by norm_num)⟩)⟩

/-- C5 counterexample: `retrieve_candidates_fts` performs no
deduplication — when the `ft_search` RPC answers with the same
`course_id` twice, the candidate list carries it twice, contradicting
"duplicate course_ids are removed ... across the three retrieval
strategies". -/
theorem fts_no_dedup_counterexample :
    (retrieveCandidatesFts ⟨"url".toList, "key".toList⟩
        (fun _ _ => .ok ["A1".toList, "A1".toList]) "q".toList 5).map Candidate.course_id
      = ["A1".toList, "A1".toList] ∧
    ¬ ((retrieveCandidatesFts ⟨"url".toList, "key".toList⟩
        (fun _ _ => .ok ["A1".toList, "A1".toList]) "q".toList 5).map
          Candidate.course_id).Nodup := by
  exact ⟨rfl, by decide⟩

/-- C5 (amended): first-occurrence-wins deduplication by `course_id`
holds for the caller-supplied `results`/`courses` normalization of
`/recommend` (each id appears at most once, in first-occurrence order
over the valid entries); the FTS and substring-title strategies pass
duplicates through unchanged. -/
theorem candidate_dedup_amended (rs : Option (List RItem)) (cs : Option (List CEntry)) :
    (normalizeCandidates rs cs).map Candidate.course_id
        = dedupFirst (validResultIds rs ++ validCourseIds cs) ∧
    ((normalizeCandidates rs cs).map Candidate.course_id).Nodup := by
  have h : (normalizeCandidates rs cs).map Candidate.course_id
      = dedupFirst (validResultIds rs ++ validCourseIds cs) := by
    unfold normalizeCandidates
    dsimp only
    rw [addCandidates_map_fst]
    congr 1
    simp [validResultIds, validCourseIds]
  exact ⟨h, h ▸ dedupFirst_nodup _⟩

/-- C6: the ingestion run drops every source row with an empty/missing
`course_id` or `title`; a finished run exits 0 exactly when
embedding-table count = source-table count = rows embedded, and on
mismatch exits 2 reporting the difference `courses − embeddings`; in
particular, from N source rows of which exactly one is malformed
(missing `course_id`), the run embeds N−1 rows, the embedding table
holds N−1 rows, and the reconciliation reports difference 1 with a
non-zero exit. -/
theorem ingestion_reconciliation :
    (∀ rows : List Row,
      fetchCourses rows = (rows.filter (fun r => decide (validSourceRow r))).map stripRow) ∧
    (∀ (rows : List Row) (api : EmbedApi) (init : Finset Str)
        (co ce embedded exit : Nat) (diff : Int),
      mainIngest rows api init = .finished co ce embedded exit diff →
      (exit = 0 ↔ (ce = co ∧ ce = embedded)) ∧
        (exit ≠ 0 → exit = 2 ∧ diff = (co : Int) - (ce : Int))) ∧
    (∀ (l1 l2 : List Row) (bad : Row) (api : EmbedApi),
      pyStrip bad.course_id = [] →
      (∀ r ∈ l1 ++ l2, validSourceRow r) →
      ((l1 ++ l2).map (fun r => pyStrip r.course_id)).Nodup →
      l1 ++ l2 ≠ [] →
      (∀ b, (api b).length = b.length ∧ ∀ v ∈ api b, v.length = VECTOR_DIM) →
      mainIngest (l1 ++ bad :: l2) api ∅
        = .finished (l1.length + l2.length + 1) (l1.length + l2.length)
            (l1.length + l2.length) 2 1) := by
  refine ⟨fetchCourses_eq, ?_, ?_⟩
  · intro rows api init co ce embedded exit diff h
    unfold mainIngest at h
    dsimp only at h
    split at h
    · cases h
    · split at h
      · cases h
      · split at h
        · cases h
        · split at h
          · next hc =>
            injection h with h1 h2 h3 h4 h5
            subst h1; subst h2; subst h3; subst h4; subst h5
            exact ⟨⟨fun _ => hc, fun _ => rfl⟩, fun hne => absurd rfl hne⟩
          · next hc =>
            injection h with h1 h2 h3 h4 h5
            subst h1; subst h2; subst h3; subst h4; subst h5
            exact ⟨⟨fun h0 => absurd h0 (by decide), fun hcc => absurd hcc hc⟩,
              fun _ => ⟨rfl, rfl⟩⟩
  · intro l1 l2 bad api hbad hval hnd hne hapi
    have hfilter : (l1 ++ bad :: l2).filter (fun r => decide (validSourceRow r)) = l1 ++ l2 := by
      rw [List.filter_append, List.filter_cons]
      rw [if_neg (by simp [validSourceRow, hbad])]
      rw [List.filter_eq_self.mpr (fun a ha => by
            simpa using hval a (List.mem_append_left _ ha)),
          List.filter_eq_self.mpr (fun a ha => by
            simpa using hval a (List.mem_append_right _ ha))]
    have hfetch : fetchCourses (l1 ++ bad :: l2) = ((l1 ++ l2).map stripRow) := by
      rw [fetchCourses_eq, hfilter]
    have hn : ((l1 ++ l2).map stripRow).length = l1.length + l2.length := by
      simp
    have hcleanne : (l1 ++ l2).map stripRow ≠ [] := by
      intro hmape
      exact hne (List.map_eq_nil_iff.mp hmape)
    have htne : ((l1 ++ l2).map stripRow).map buildEmbeddingText ≠ [] := by
      intro hmape
      exact hcleanne (List.map_eq_nil_iff.mp hmape)
    have hok := createEmbeddings_ok api (((l1 ++ l2).map stripRow).map buildEmbeddingText)
      htne hapi
    have hvlen : ((pyBatches BATCH_SIZE (((l1 ++ l2).map stripRow).map
        buildEmbeddingText)).flatMap api).length = l1.length + l2.length := by
      rw [hok.2]; simp
    have hids : ((l1 ++ l2).map stripRow).map Row.course_id
        = (l1 ++ l2).map (fun r => pyStrip r.course_id) := by
      rw [List.map_map]; rfl
    have hce : ((∅ ∪ (((l1 ++ l2).map stripRow).map Row.course_id).toFinset) : Finset Str).card
        = l1.length + l2.length := by
      rw [Finset.empty_union, hids, List.toFinset_card_of_nodup hnd]
      simp
    have hco : (l1 ++ bad :: l2).length = l1.length + l2.length + 1 := by
      simp only [List.length_append, List.length_cons]; omega
    unfold mainIngest
    dsimp only
    rw [hfetch, if_neg hcleanne, hok.1]
    dsimp only
    rw [if_neg (by
      push_neg
      refine ⟨?_, ?_⟩
      · intro hveq
        rw [hveq] at hvlen
        simp only [List.length_nil] at hvlen
        refine hne (List.eq_nil_of_length_eq_zero ?_)
        simp only [List.length_append]
        omega
      · exact hok.2)]
    rw [if_neg (by
      intro hcc
      rcases hcc with ⟨ha, _⟩
      rw [hce, hco] at ha
      omega)]
    rw [hce, hn, hco]
    congr 1
    push_cast
    omega

/-- C6 witness: three source rows of which the middle one lacks a
`course_id`; the run embeds 2 rows and reconciliation reports
difference 1 with exit code 2. -/
theorem ingestion_reconciliation_witness :
    mainIngest ([⟨"a".toList, "A".toList, []⟩] ++ (⟨[], "T".toList, []⟩ : Row) ::
        [⟨"b".toList, "B".toList, []⟩])
      (fun b => b.map fun _ => List.replicate VECTOR_DIM (0 : ℚ)) ∅
      = .finished 3 2 2 2 1 :=
  ingestion_reconciliation.2.2 [⟨"a".toList, "A".toList, []⟩] [⟨"b".toList, "B".toList, []⟩]
    ⟨[], "T".toList, []⟩ (fun b => b.map fun _ => List.replicate VECTOR_DIM (0 : ℚ))
    (by decide) (by decide) (by decide) (by decide)
    (fun b => ⟨by simp, by
      intro v hv
      rcases List.mem_map.mp hv with ⟨a, _, rfl⟩
      simp⟩)

theorem dropWhile_idem (p : Char → Bool) (l : Str) :
    (l.dropWhile p).dropWhile p = l.dropWhile p := by
  cases hd : l.dropWhile p with
  | nil => rfl
  | cons c t =>
    have hc : p c = false := by
      have h := List.head?_dropWhile_not p l
      rw [hd] at h
      simpa using h
    exact List.dropWhile_cons_of_neg (by simp [hc])

theorem not_head_of_dropWhile_eq_self {p : Char → Bool} {c : Char} {t : Str}
    (h : (c :: t).dropWhile p = c :: t) : p c = false := by
  have h2 := List.head?_dropWhile_not p (c :: t)
  rw [h] at h2
  simpa using h2

theorem dropTrailing_prefix_self (p : Char → Bool) (u : Str) : dropTrailing p u <+: u := by
  refine ⟨(u.reverse.takeWhile p).reverse, ?_⟩
  unfold dropTrailing
  rw [← List.reverse_append, List.takeWhile_append_dropWhile, List.reverse_reverse]

theorem dropWhile_dropTrailing_eq_self (p : Char → Bool) (u : Str)
    (hu : u.dropWhile p = u) : (dropTrailing p u).dropWhile p = dropTrailing p u := by
  cases hd : dropTrailing p u with
  | nil => rfl
  | cons c t =>
    obtain ⟨r, hr⟩ := dropTrailing_prefix_self p u
    rw [hd] at hr
    have hc : p c = false := by
      rw [← hr, List.cons_append] at hu
      exact not_head_of_dropWhile_eq_self hu
    exact List.dropWhile_cons_of_neg (by simp [hc])

theorem pyStrip_idem (s : Str) : pyStrip (pyStrip s) = pyStrip s := by
  unfold pyStrip
  rw [dropWhile_dropTrailing_eq_self pySpace _ (dropWhile_idem pySpace s)]
  unfold dropTrailing
  rw [List.reverse_reverse, dropWhile_idem]

theorem pyStrip_sublist (s : Str) : List.Sublist (pyStrip s) s := by
  unfold pyStrip
  exact ((dropTrailing_prefix_self _ _).sublist).trans (List.dropWhile_sublist _)

theorem dropTrailing_last (p : Char → Bool) (a : Str) (c : Char) (hc : p c = false) :
    dropTrailing p (a ++ [c]) = a ++ [c] := by
  unfold dropTrailing
  rw [List.reverse_append]
  simp only [List.reverse_cons, List.reverse_nil, List.nil_append, List.singleton_append]
  rw [List.dropWhile_cons_of_neg (by simp [hc])]
  simp

theorem fenceWrap_eq (s : Str) :
    fenceWrap s = backtick :: backtick :: backtick ::
      ('j' :: 's' :: 'o' :: 'n' :: '\n' :: (s ++ '\n' :: fenceMarker)) := rfl

theorem pyStrip_fenceWrap (s : Str) : pyStrip (fenceWrap s) = fenceWrap s := by
  have h2 : fenceWrap s
      = (fenceMarker ++ "json\n".toList ++ s ++ ['\n'] ++ [backtick, backtick]) ++ [backtick] := by
    simp [fenceWrap, fenceMarker, List.append_assoc]
  have hfront : (fenceWrap s).dropWhile pySpace = fenceWrap s := by
    rw [fenceWrap_eq]
    exact List.dropWhile_cons_of_neg (by decide)
  have hback : dropTrailing pySpace (fenceWrap s) = fenceWrap s := by
    rw [h2, dropTrailing_last _ _ _ (by decide)]
  unfold pyStrip
  rw [hfront, hback]

theorem stripFence_fenceWrap (s : Str) : stripFence (fenceWrap s) = pyStrip s := by
  unfold stripFence
  rw [fenceWrap_eq]
  dsimp only
  rw [show List.drop 3 (backtick :: backtick :: backtick ::
      'j' :: 's' :: 'o' :: 'n' :: '\n' :: (s ++ '\n' :: fenceMarker))
      = 'j' :: 's' :: 'o' :: 'n' :: '\n' :: (s ++ '\n' :: fenceMarker) from rfl]
  rw [show (('j' :: 's' :: 'o' :: 'n' :: '\n' :: (s ++ '\n' :: fenceMarker)).take 4)
      = "json".toList from rfl]
  rw [show (('j' :: 's' :: 'o' :: 'n' :: '\n' :: (s ++ '\n' :: fenceMarker)).drop 4)
      = '\n' :: (s ++ '\n' :: fenceMarker) from rfl]
  rw [if_pos (show lowerStr "json".toList = "json".toList from by decide)]
  rw [List.dropWhile_cons_of_pos (by decide), List.dropWhile_append]
  split
  · next hemp =>
    have hs : s.dropWhile pySpace = [] := by simpa using hemp
    rw [show ('\n' :: fenceMarker).dropWhile pySpace = fenceMarker from rfl]
    rw [if_pos (List.suffix_refl fenceMarker)]
    unfold pyStrip
    rw [hs]
    rfl
  · next hemp =>
    have hs : s.dropWhile pySpace ≠ [] := by simpa using hemp
    have hassoc : s.dropWhile pySpace ++ '\n' :: fenceMarker
        = (s.dropWhile pySpace ++ ['\n']) ++ fenceMarker := by
      simp [List.append_assoc]
    rw [if_pos ⟨s.dropWhile pySpace ++ ['\n'], hassoc.symm⟩]
    rw [show (s.dropWhile pySpace ++ '\n' :: fenceMarker).length - 3
        = (s.dropWhile pySpace ++ ['\n']).length from by
      simp [fenceMarker]]
    rw [hassoc, List.take_left]
    rw [dropTrailing]
    rw [List.reverse_append]
    simp only [List.reverse_cons, List.reverse_nil, List.nil_append, List.singleton_append]
    rw [List.dropWhile_cons_of_pos (by decide)]
    unfold pyStrip dropTrailing
    rfl

theorem preprocessed_fenceWrap (s : Str) : preprocessed (fenceWrap s) = pyStrip s := by
  unfold preprocessed
  rw [pyStrip_fenceWrap]
  rw [if_pos ⟨"json\n".toList ++ s ++ '\n' :: fenceMarker, by
    simp [fenceWrap, fenceMarker, List.append_assoc]⟩]
  rw [stripFence_fenceWrap, pyStrip_idem]

theorem preprocessed_of_no_backtick (s : Str) (h : backtick ∉ s) :
    preprocessed s = pyStrip s := by
  unfold preprocessed
  rw [if_neg ?_]
  intro hp
  exact h ((pyStrip_sublist s).subset (hp.subset (by decide)))

theorem parseJsonSafely_as_chain (text : Str) :
    parseJsonSafely text
      = match jsonLoads (preprocessed text) with
        | some v => v
        | none =>
          match extractBracket (preprocessed text) with
          | some sub => match jsonLoads sub with | some v => v | none => J.arr []
          | none => J.arr [] := rfl

/-- C8: a JSON payload wrapped in a fenced ```` ```json ```` block parses
to the same value as the unwrapped payload; any string containing no
recoverable JSON yields the empty array without raising; and the
recovery order is: strip fence, direct parse, first bracketed substring,
empty fallback. -/
theorem parse_json_safely_recovery :
    (∀ s : Str, backtick ∉ s → parseJsonSafely (fenceWrap s) = parseJsonSafely s) ∧
    (∀ s : Str, noRecoverableJson s → parseJsonSafely s = J.arr []) ∧
    (∀ (s : Str) (v : J), jsonLoads (preprocessed s) = some v → parseJsonSafely s = v) ∧
    (∀ (s sub : Str) (v : J), jsonLoads (preprocessed s) = none →
      extractBracket (preprocessed s) = some sub → jsonLoads sub = some v →
      parseJsonSafely s = v) := by
  refine ⟨?_, ?_, ?_, ?_⟩
  · intro s h
    rw [parseJsonSafely_as_chain, parseJsonSafely_as_chain, preprocessed_fenceWrap,
      preprocessed_of_no_backtick s h]
  · intro s hs
    rw [parseJsonSafely_as_chain, hs.1]
    cases hb : extractBracket (preprocessed s) with
    | none => rfl
    | some sub =>
      dsimp only
      rw [hs.2 sub hb]
  · intro s v h
    rw [parseJsonSafely_as_chain, h]
  · intro s sub v h1 h2 h3
    rw [parseJsonSafely_as_chain, h1, h2]
    dsimp only
    rw [h3]

/-- C8 witness: the spec's concrete array parses identically with and
without the fence (to the expected value), and plain prose yields the
empty array. -/
theorem parse_json_safely_recovery_witness :
    parseJsonSafely (fenceWrap
        "[\x7b\x22course_id\x22:\x22X\x22,\x22rationale\x22:\x22ok\x22,\x22confidence\x22:0.9\x7d]".toList)
      = parseJsonSafely
        "[\x7b\x22course_id\x22:\x22X\x22,\x22rationale\x22:\x22ok\x22,\x22confidence\x22:0.9\x7d]".toList ∧
    parseJsonSafely
        "[\x7b\x22course_id\x22:\x22X\x22,\x22rationale\x22:\x22ok\x22,\x22confidence\x22:0.9\x7d]".toList
      = J.arr [J.obj [("course_id".toList, J.str "X".toList),
          ("rationale".toList, J.str "ok".toList),
          ("confidence".toList, J.num 9 (-1))]] ∧
    parseJsonSafely "hello world".toList = J.arr [] :=
  ⟨parse_json_safely_recovery.1
     "[\x7b\x22course_id\x22:\x22X\x22,\x22rationale\x22:\x22ok\x22,\x22confidence\x22:0.9\x7d]".toList
     (by decide),
   parse_json_safely_recovery.2.2.1
     "[\x7b\x22course_id\x22:\x22X\x22,\x22rationale\x22:\x22ok\x22,\x22confidence\x22:0.9\x7d]".toList
     (J.arr [J.obj [("course_id".toList, J.str "X".toList),
       ("rationale".toList, J.str "ok".toList),
       ("confidence".toList, J.num 9 (-1))]])
     rfl,
   parse_json_safely_recovery.2.1 "hello world".toList
     ⟨rfl, by
       intro sub h
       rw [show extractBracket (preprocessed "hello world".toList) = none from rfl] at h
       cases h⟩⟩

theorem pyWordsAux_words (fuel : Nat) : ∀ (s : Str) (w : Str), w ∈ pyWordsAux fuel s →
    w ≠ [] ∧ ∀ c ∈ w, pySpace c = false := by
  induction fuel with
  | zero => intro s w hw; cases hw
  | succ fuel ih =>
    intro s w hw
    unfold pyWordsAux at hw
    dsimp only at hw
    rcases hd : s.dropWhile pySpace with _ | ⟨c, rest⟩
    · rw [hd] at hw; cases hw
    · rw [hd] at hw
      dsimp only at hw
      rcases List.mem_cons.mp hw with hw | hw
      · subst hw
        have hc : pySpace c = false := by
          have h2 := List.head?_dropWhile_not pySpace s
          rw [hd] at h2
          simpa using h2
        refine ⟨by simp, ?_⟩
        intro d hdm
        rcases List.mem_cons.mp hdm with hdm | hdm
        · subst hdm; exact hc
        · have := List.mem_takeWhile_imp hdm
          simpa using this
      · exact ih _ w hw

theorem mem_joinWords {c : Char} : ∀ L : List Str, c ∈ joinWords L →
    (∃ w ∈ L, c ∈ w) ∨ c = ' ' := by
  intro L
  induction L with
  | nil => intro h; cases h
  | cons w ws ih =>
    cases ws with
    | nil => intro h; exact Or.inl ⟨w, by simp, h⟩
    | cons w2 ws2 =>
      intro h
      rw [show joinWords (w :: w2 :: ws2) = w ++ ' ' :: joinWords (w2 :: ws2) from rfl] at h
      rcases List.mem_append.mp h with h | h
      · exact Or.inl ⟨w, by simp, h⟩
      · rcases List.mem_cons.mp h with h | h
        · exact Or.inr h
        · rcases ih h with ⟨w3, hw3, hc3⟩ | h
          · exact Or.inl ⟨w3, List.mem_cons_of_mem _ hw3, hc3⟩
          · exact Or.inr h

theorem joinWords_dropWhile (L : List Str)
    (h : ∀ w ∈ L, w ≠ [] ∧ ∀ c ∈ w, pySpace c = false) :
    (joinWords L).dropWhile pySpace = joinWords L := by
  cases L with
  | nil => rfl
  | cons w ws =>
    obtain ⟨hne, hch⟩ := h w (by simp)
    obtain ⟨c, t, rfl⟩ : ∃ c t, w = c :: t := by
      cases w with
      | nil => exact absurd rfl hne
      | cons c t => exact ⟨c, t, rfl⟩
    have hc : pySpace c = false := hch c (by simp)
    cases ws with
    | nil => exact List.dropWhile_cons_of_neg (by simp [hc])
    | cons w2 ws2 =>
      rw [show joinWords ((c :: t) :: w2 :: ws2)
          = (c :: t) ++ ' ' :: joinWords (w2 :: ws2) from rfl, List.cons_append]
      exact List.dropWhile_cons_of_neg (by simp [hc])

theorem collapseWs_chars (s : Str) : ∀ c ∈ collapseWs s, pySpace c = false ∨ c = ' ' := by
  intro c hc
  unfold collapseWs pyWords at hc
  rcases mem_joinWords _ hc with ⟨w, hw, hcw⟩ | h
  · exact Or.inl ((pyWordsAux_words _ _ w hw).2 c hcw)
  · exact Or.inr h

theorem collapseWs_dropWhile (s : Str) :
    (collapseWs s).dropWhile pySpace = collapseWs s := by
  unfold collapseWs pyWords
  exact joinWords_dropWhile _ (fun w hw => pyWordsAux_words _ _ w hw)

theorem dropWhile_take_eq_self (p : Char → Bool) (l : Str) (n : Nat)
    (h : l.dropWhile p = l) : (l.take n).dropWhile p = l.take n := by
  cases l with
  | nil => simp
  | cons c t =>
    cases n with
    | zero => simp
    | succ n =>
      have hc := not_head_of_dropWhile_eq_self h
      rw [List.take_succ_cons]
      exact List.dropWhile_cons_of_neg (by simp [hc])

theorem pyStripChars_dropWhile (x : Str)
    (hx : ∀ c ∈ x, pySpace c = false ∨ c = ' ') :
    (pyStripChars sepChars x).dropWhile pySpace = pyStripChars sepChars x := by
  cases hd : pyStripChars sepChars x with
  | nil => rfl
  | cons c t =>
    have hpre : List.IsPrefix (c :: t) (x.dropWhile (fun d => sepChars.contains d)) := by
      rw [← hd]
      unfold pyStripChars
      exact dropTrailing_prefix_self _ _
    obtain ⟨r, hr⟩ := hpre
    have hq : sepChars.contains c = false := by
      have h2 := List.head?_dropWhile_not (fun d => sepChars.contains d) x
      rw [← hr, List.cons_append] at h2
      simpa using h2
    have hcx : c ∈ x := by
      have hm : c ∈ x.dropWhile (fun d => sepChars.contains d) := by
        rw [← hr]; simp
      exact (List.dropWhile_sublist _).subset hm
    have hcs : pySpace c = false := by
      rcases hx c hcx with h | h
      · exact h
      · subst h; simp [sepChars] at hq
    exact List.dropWhile_cons_of_neg (by simp [hcs])

theorem dropTrailing_append (p : Char → Bool) (a b : Str)
    (hb : dropTrailing p b ≠ []) :
    dropTrailing p (a ++ b) = a ++ dropTrailing p b := by
  unfold dropTrailing at hb ⊢
  rw [List.reverse_append, List.dropWhile_append, if_neg ?_]
  · rw [List.reverse_append, List.reverse_reverse]
  · intro hemp
    apply hb
    have : b.reverse.dropWhile p = [] := by simpa using hemp
    rw [this]
    rfl

theorem dropWhile_eq_self_of_pyStrip {l : Str} (h : pyStrip l = l) :
    l.dropWhile pySpace = l := by
  have h1 : List.Sublist (l.dropWhile pySpace) l := List.dropWhile_sublist _
  apply h1.eq_of_length
  have h2 := congrArg List.length h
  unfold pyStrip at h2
  have h3 := (dropTrailing_prefix_self pySpace (l.dropWhile pySpace)).sublist.length_le
  have h4 := h1.length_le
  omega

theorem pyStrip_append_left (T rest : Str) (hT : T.dropWhile pySpace = T) (hTne : T ≠ [])
    (hrest : dropTrailing pySpace rest ≠ []) :
    pyStrip (T ++ rest) = T ++ dropTrailing pySpace rest := by
  obtain ⟨c, t, rfl⟩ : ∃ c t, T = c :: t := by
    cases T with
    | nil => exact absurd rfl hTne
    | cons c t => exact ⟨c, t, rfl⟩
  have hc := not_head_of_dropWhile_eq_self hT
  unfold pyStrip
  rw [List.cons_append, List.dropWhile_cons_of_neg (by simp [hc]), ← List.cons_append]
  exact dropTrailing_append pySpace _ rest hrest

theorem d4_dropWhile (title desc : Str) :
    (if lowerStr title <+: lowerStr ((collapseWs (nlToSpace desc)).take TEXT_MAX_CHARS)
      then pyStripChars sepChars
        (((collapseWs (nlToSpace desc)).take TEXT_MAX_CHARS).drop title.length)
      else (collapseWs (nlToSpace desc)).take TEXT_MAX_CHARS).dropWhile pySpace
    = (if lowerStr title <+: lowerStr ((collapseWs (nlToSpace desc)).take TEXT_MAX_CHARS)
      then pyStripChars sepChars
        (((collapseWs (nlToSpace desc)).take TEXT_MAX_CHARS).drop title.length)
      else (collapseWs (nlToSpace desc)).take TEXT_MAX_CHARS) := by
  split
  · apply pyStripChars_dropWhile
    intro c hc
    exact collapseWs_chars _ c
      (List.take_subset _ _ (List.drop_subset _ _ hc))
  · exact dropWhile_take_eq_self _ _ _ (collapseWs_dropWhile _)

/-- C9: for every course record, an empty (or missing) description makes
`build_embedding_text` return the (trimmed) title verbatim; otherwise it
returns `"{title} — {trimmed_description}"`, where the trimmed
description is obtained by collapsing internal whitespace/newlines,
truncating to the configured 500 characters, and stripping a leading
case-insensitive repetition of the title. -/
theorem build_embedding_text_contract :
    (∀ row : Row, pyStrip row.title = row.title → pyStrip row.description = [] →
      buildEmbeddingText row = row.title) ∧
    (∀ row : Row, pyStrip row.title = row.title → row.title ≠ [] →
      pyStrip row.description ≠ [] →
      trimmedDescriptionSpec row.title (pyStrip row.description) ≠ [] →
      buildEmbeddingText row
        = row.title ++ emdashSep
            ++ trimmedDescriptionSpec row.title (pyStrip row.description)) := by
  constructor
  · intro row ht hd
    unfold buildEmbeddingText
    dsimp only
    rw [ht, hd, if_pos rfl]
  · intro row ht htne hdne hsne
    have hspec : trimmedDescriptionSpec row.title (pyStrip row.description)
        = dropTrailing pySpace
          (if lowerStr row.title <+:
              lowerStr ((collapseWs (nlToSpace (pyStrip row.description))).take TEXT_MAX_CHARS)
            then pyStripChars sepChars
              (((collapseWs (nlToSpace (pyStrip row.description))).take
                TEXT_MAX_CHARS).drop row.title.length)
            else (collapseWs (nlToSpace (pyStrip row.description))).take TEXT_MAX_CHARS) := by
      unfold trimmedDescriptionSpec
      dsimp only
      unfold pyStrip
      rw [d4_dropWhile]
    have hbne : dropTrailing pySpace
        (if lowerStr row.title <+:
            lowerStr ((collapseWs (nlToSpace (pyStrip row.description))).take TEXT_MAX_CHARS)
          then pyStripChars sepChars
            (((collapseWs (nlToSpace (pyStrip row.description))).take
              TEXT_MAX_CHARS).drop row.title.length)
          else (collapseWs (nlToSpace (pyStrip row.description))).take TEXT_MAX_CHARS) ≠ [] := by
      rw [← hspec]
      exact hsne
    have hT : row.title.dropWhile pySpace = row.title := dropWhile_eq_self_of_pyStrip ht
    unfold buildEmbeddingText
    dsimp only
    rw [ht, if_neg hdne]
    rw [hspec]
    simp only [List.append_assoc]
    rw [pyStrip_append_left row.title _ hT htne ?hr]
    case hr =>
      rw [dropTrailing_append pySpace emdashSep _ hbne]
      simp
      intro hem
      exact absurd hem (by decide)
    rw [dropTrailing_append pySpace emdashSep _ hbne]

/-- C9 witness: a record whose description repeats the title (stripped,
with its separator), and a record with a whitespace-only description. -/
theorem build_embedding_text_contract_witness :
    buildEmbeddingText ⟨"CF101".toList, "Corporate Finance".toList,
        "Corporate Finance: cash  flows and\nvaluation.".toList⟩
      = "Corporate Finance".toList ++ emdashSep
          ++ trimmedDescriptionSpec "Corporate Finance".toList
            (pyStrip "Corporate Finance: cash  flows and\nvaluation.".toList) ∧
    buildEmbeddingText ⟨"X1".toList, "Negotiations".toList, "   ".toList⟩
      = "Negotiations".toList :=
  ⟨build_embedding_text_contract.2
     ⟨"CF101".toList, "Corporate Finance".toList,
       "Corporate Finance: cash  flows and\nvaluation.".toList⟩
     (by decide) (by decide) (by decide) (by decide),
   build_embedding_text_contract.1
     ⟨"X1".toList, "Negotiations".toList, "   ".toList⟩ (by decide) (by decide)⟩

end MbaClasses
